import Mathlib

/-!
Verification of the claude-container credential-broker core.

This file gives a shallow embedding, in Lean 4, of the security-relevant
pure logic of the repository:

* `src/plugins/base/security.py` — peer-uid verification (`verify_peer_uid`)
  and the connection auth gate of `src/plugins/base/server.py`;
* `src/plugins/base/protocol.py` — length-prefixed message framing
  (`read_message`);
* `src/command-agent/server.py` — branch protection (`check_branch_allowed`
  with an embedding of Python `fnmatch`), the git-push argv parser
  (`extract_push_branch`), pre-execution validation (`validate_command`),
  output truncation of `execute_command`, and the request router
  (`CommandAgent.handle_request`);
* `src/credential-agent/server.py` — the policy engine
  (`Policy.check_access`), the environment-scrubbing credential load
  (`CredentialStore._load_from_environment`), and the request router
  (`RequestHandler.handle`).

Python strings are modelled by Lean `String` (lists of characters); the
process environment and Python dicts are modelled by association lists;
I/O results (the current-branch query, the spawned subprocess) are passed
in explicitly as values.  Theorems about each component follow the
definitions.
-/

/-! ## Python string helpers -/

/-- Embedding of Python `str.split(sep)` for a one-character separator:
`pySplit c l` cuts `l` at every occurrence of `c`, keeping empty pieces,
so `pySplit ':' "a::b"` is `["a", "", "b"]` and `pySplit c [] = [[]]`. -/
def pySplit (sep : Char) : List Char → List (List Char)
  | [] => [[]]
  | c :: cs =>
    if c = sep then
      [] :: pySplit sep cs
    else
      match pySplit sep cs with
      | h :: t => (c :: h) :: t
      | [] => [[c]]

theorem pySplit_ne_nil (sep : Char) (l : List Char) : pySplit sep l ≠ [] := by
  induction l with
  | nil => simp [pySplit]
  | cons c cs ih =>
    simp only [pySplit]
    split
    · simp
    · cases h : pySplit sep cs with
      | nil => simp
      | cons h t => simp

/-- The piece before the first separator is the `takeWhile` prefix. -/
theorem pySplit_head (sep : Char) (l : List Char) :
    ∃ t, pySplit sep l = l.takeWhile (fun c => !(c = sep : Bool)) :: t := by
  induction l with
  | nil => exact ⟨[], rfl⟩
  | cons c cs ih =>
    by_cases hc : c = sep
    · subst hc
      refine ⟨pySplit c cs, ?_⟩
      simp [pySplit, List.takeWhile]
    · obtain ⟨t, ht⟩ := ih
      refine ⟨t, ?_⟩
      simp only [pySplit, if_neg hc, ht]
      simp [List.takeWhile, hc]

/-- Splitting at an explicit first separator occurrence. -/
theorem pySplit_append (sep : Char) (l₁ l₂ : List Char) (h : sep ∉ l₁) :
    pySplit sep (l₁ ++ sep :: l₂) = l₁ :: pySplit sep l₂ := by
  induction l₁ with
  | nil => simp [pySplit]
  | cons c cs ih =>
    have hc : ¬ c = sep := fun hh => h (hh ▸ List.mem_cons_self c cs)
    have hcs : sep ∉ cs := fun hh => h (List.mem_cons_of_mem c hh)
    simp only [List.cons_append, pySplit, if_neg hc, List.append_eq, ih hcs]

/-- A separator-free list is returned whole. -/
theorem pySplit_of_not_mem (sep : Char) (l : List Char) (h : sep ∉ l) :
    pySplit sep l = [l] := by
  induction l with
  | nil => rfl
  | cons c cs ih =>
    have hc : ¬ c = sep := fun hh => h (hh ▸ List.mem_cons_self c cs)
    have hcs : sep ∉ cs := fun hh => h (List.mem_cons_of_mem c hh)
    simp [pySplit, if_neg hc, ih hcs]

/-! ## Plugin base: peer authentication (`src/plugins/base/security.py`)

`verify_peer_uid(sock, allowed_uids)` reads the kernel `SO_PEERCRED`
structure and computes `allowed = len(allowed_uids) == 0 or uid in
allowed_uids`.  The socket read is modelled by passing the
kernel-reported `uid` directly; the exception path (credentials
unreadable) is out of scope of the embedding. -/

/-- Embedding of `verify_peer_uid` (security.py lines 105-129): returns
`(allowed, peer_uid)` with `allowed = len(allowed_uids) == 0 or uid in
allowed_uids`. -/
def verify_peer_uid (uid : Nat) (allowed_uids : List Nat) : Bool × Nat :=
  ((allowed_uids.length == 0) || allowed_uids.contains uid, uid)

/-- Embedding of the auth gate of `PluginServer._handle_connection`
(server.py lines 138-152): peer credentials are verified only `if
self._allowed_uids` is non-empty; the result is `true` when the
connection proceeds past the gate and `false` when it is rejected with
an access-denied response. -/
def plugin_auth_gate (allowed_uids : List Nat) (uid : Nat) : Bool :=
  if allowed_uids ≠ [] then (verify_peer_uid uid allowed_uids).1 else true

/-- C1 counterexample: with an empty allowlist, `verify_peer_uid` reports
uid 1234 as allowed even though 1234 is a member of no allowlist — the
code implements allow-all on an empty allowlist, not deny-all. -/
theorem verify_peer_uid_empty_allows :
    (verify_peer_uid 1234 []).1 = true ∧ (1234 : Nat) ∉ ([] : List Nat) := by
  constructor
  · rfl
  · simp

/-- C1 (amended): peer authorization succeeds iff the configured uid
allowlist is empty or the kernel-reported uid is a member of it; the
plugin server's connection gate behaves identically, because it skips
verification entirely when the allowlist is empty.  An empty allowlist
therefore means allow-all. -/
theorem verify_peer_uid_characterization (uid : Nat) (A : List Nat) :
    ((verify_peer_uid uid A).1 = true ↔ A = [] ∨ uid ∈ A) ∧
    (plugin_auth_gate A uid = true ↔ A = [] ∨ uid ∈ A) := by
  constructor
  · simp [verify_peer_uid, List.length_eq_zero]
  · by_cases hA : A = []
    · subst hA; simp [plugin_auth_gate]
    · simp [plugin_auth_gate, hA, verify_peer_uid, List.length_eq_zero]

/-! ## Plugin base: message framing (`src/plugins/base/protocol.py`)

The wire format is a 4-byte big-endian length prefix followed by a JSON
payload; `MAX_MESSAGE_SIZE = 64 * 1024`.  The socket is modelled as the
finite list of bytes it will deliver before closing: `_recv_exact`
succeeds exactly when enough bytes remain.  JSON decoding itself
(`decode_message`) is not modelled; the outcome `ReadOutcome.decode p`
marks that `read_message` accepted the frame and handed the payload `p`
to `decode_message`, while `ReadOutcome.protocolError` is a
`ProtocolError` raised before any decoding was attempted. -/

def MAX_MESSAGE_SIZE : Nat := 64 * 1024

/-- Embedding of `_recv_exact(sock, size)`: on a stream with `input`
bytes left, returns the bytes read and the remaining stream, or `none`
when the stream closes before `size` bytes arrive. -/
def recvExact (input : List Nat) (size : Nat) : Option (List Nat × List Nat) :=
  if size ≤ input.length then some (input.take size, input.drop size) else none

/-- Big-endian interpretation of a byte list, as computed by
`struct.unpack(">I", length_bytes)[0]` on the 4 prefix bytes. -/
def be32 (l : List Nat) : Nat :=
  l.foldl (fun acc b => acc * 256 + b) 0

/-- Result of `read_message`: either a `ProtocolError` (with the message
text) or a frame accepted and passed on to JSON decoding. -/
inductive ReadOutcome where
  | protocolError (msg : String)
  | decode (payload : List Nat)
  deriving DecidableEq, Repr

/-- Embedding of `read_message(sock)` (protocol.py lines 59-86): read the
4-byte prefix, reject lengths above `MAX_MESSAGE_SIZE` before reading or
decoding the payload, then read the payload and hand it to decoding.
The Python `if not payload` falsiness check also trips on an empty
payload (declared length 0). -/
def read_message (input : List Nat) : ReadOutcome :=
  match recvExact input 4 with
  | none => .protocolError "Connection closed"
  | some (lengthBytes, rest) =>
    if lengthBytes = [] then .protocolError "Connection closed"
    else
      let length := be32 lengthBytes
      if length > MAX_MESSAGE_SIZE then
        .protocolError ("Message size " ++ toString length ++ " exceeds max "
          ++ toString MAX_MESSAGE_SIZE)
      else
        match recvExact rest length with
        | none => .protocolError "Connection closed during message read"
        | some (payload, _) =>
          if payload = [] then .protocolError "Connection closed during message read"
          else .decode payload

/-- C8: a frame whose declared payload length is exactly the 64 KiB cap
is accepted and its full payload handed to JSON decoding, while a frame
whose declared length exceeds the cap is rejected with a
`ProtocolError` — an outcome produced before any decoding — whatever
bytes follow the prefix. -/
theorem read_message_size_cap (input : List Nat) (h4 : 4 ≤ input.length) :
    (be32 (input.take 4) = MAX_MESSAGE_SIZE →
      MAX_MESSAGE_SIZE ≤ (input.drop 4).length →
      read_message input = .decode ((input.drop 4).take MAX_MESSAGE_SIZE)) ∧
    (be32 (input.take 4) > MAX_MESSAGE_SIZE →
      read_message input = .protocolError
        ("Message size " ++ toString (be32 (input.take 4)) ++ " exceeds max "
          ++ toString MAX_MESSAGE_SIZE)) := by
  have hrecv : recvExact input 4 = some (input.take 4, input.drop 4) := by
    simp [recvExact, h4]
  have hne : input.take 4 ≠ [] := by
    intro hnil
    have : (input.take 4).length = 4 := by
      simp [List.length_take]
      omega
    rw [hnil] at this
    simp at this
  constructor
  · intro hlen hrest
    have hrest' : MAX_MESSAGE_SIZE ≤ input.length - 4 := by
      simpa [List.length_drop] using hrest
    have hrecv2 : recvExact (input.drop 4) MAX_MESSAGE_SIZE =
        some ((input.drop 4).take MAX_MESSAGE_SIZE, (input.drop 4).drop MAX_MESSAGE_SIZE) := by
      simp [recvExact, List.length_drop, hrest']
    have hpne : (input.drop 4).take MAX_MESSAGE_SIZE ≠ [] := by
      intro hnil
      have : ((input.drop 4).take MAX_MESSAGE_SIZE).length = MAX_MESSAGE_SIZE := by
        simp [List.length_take, List.length_drop]
        omega
      rw [hnil] at this
      simp [MAX_MESSAGE_SIZE] at this
    simp [read_message, hrecv, hne, hlen, hrecv2, hpne]
  · intro hlen
    simp [read_message, hrecv, hne, Nat.not_le.mpr hlen, hlen]

/-- C8 witness: a concrete frame declaring exactly 65536 payload bytes is
decoded, and a concrete frame declaring 65537 bytes is rejected with a
protocol error. -/
theorem read_message_size_cap_witness :
    read_message (([0, 1, 0, 0] : List Nat) ++ List.replicate MAX_MESSAGE_SIZE 0)
      = .decode (List.replicate MAX_MESSAGE_SIZE 0) ∧
    read_message [0, 1, 0, 1] = .protocolError "Message size 65537 exceeds max 65536" := by
  constructor
  · have htake : (([0, 1, 0, 0] : List Nat) ++ List.replicate MAX_MESSAGE_SIZE 0).take 4
        = [0, 1, 0, 0] := by
      rw [show (4 : Nat) = ([0, 1, 0, 0] : List Nat).length from rfl, List.take_left]
    have hdrop : (([0, 1, 0, 0] : List Nat) ++ List.replicate MAX_MESSAGE_SIZE 0).drop 4
        = List.replicate MAX_MESSAGE_SIZE 0 := by
      rw [show (4 : Nat) = ([0, 1, 0, 0] : List Nat).length from rfl, List.drop_left]
    have hlen4 : 4 ≤ (([0, 1, 0, 0] : List Nat) ++ List.replicate MAX_MESSAGE_SIZE 0).length := by
      rw [List.length_append, List.length_replicate]
      exact Nat.le_add_right 4 MAX_MESSAGE_SIZE
    have h1 := (read_message_size_cap _ hlen4).1
    rw [htake, hdrop] at h1
    have h2 := h1 (by decide) (by rw [List.length_replicate])
    rw [List.take_replicate, Nat.min_self] at h2
    exact h2
  · have h := (read_message_size_cap [0, 1, 0, 1] (by decide)).2 (by decide)
    rw [h]
    rfl

/-! ## Command agent: branch protection (`src/command-agent/server.py`)

`check_branch_allowed` consults the configured blocklist and glob
allowlist (module globals `BLOCKED_BRANCHES` / `ALLOWED_BRANCH_PATTERNS`,
passed here as parameters) and uses Python `fnmatch.fnmatch` for
pattern matching.  `fnmatch` is embedded below following
`fnmatch.translate`: `*` matches any sequence, `?` any single
character, `[seq]` a character class (`[!seq]` negated, `-` ranges,
an unterminated `[` is a literal). -/

/-- One token of a translated glob pattern. -/
inductive GlobTok where
  | star
  | qmark
  | cls (neg : Bool) (content : List Char)
  | lit (c : Char)
  deriving DecidableEq, Repr

/-- Scan to the closing `]` of a character class, returning the raw
content and the rest of the pattern. -/
def findClose : List Char → Option (List Char × List Char)
  | [] => none
  | c :: rest =>
    if c = ']' then some ([], rest)
    else (findClose rest).map (fun p => (c :: p.1, p.2))

theorem findClose_rest_length : ∀ (l content r : List Char),
    findClose l = some (content, r) → r.length < l.length := by
  intro l
  induction l with
  | nil => intro content r h; simp [findClose] at h
  | cons c rest ih =>
    intro content r h
    simp only [findClose] at h
    by_cases hc : c = ']'
    · rw [if_pos hc] at h
      simp only [Option.some.injEq, Prod.mk.injEq] at h
      obtain ⟨-, h2⟩ := h
      subst h2
      simp [List.length_cons]
    · rw [if_neg hc] at h
      cases hf : findClose rest with
      | none => rw [hf] at h; simp at h
      | some p =>
        obtain ⟨p1, p2⟩ := p
        rw [hf] at h
        simp only [Option.map_some', Option.some.injEq, Prod.mk.injEq] at h
        obtain ⟨-, h2⟩ := h
        subst h2
        have := ih p1 p2 hf
        simp only [List.length_cons]
        omega

/-- Parse a `[...]` class following `fnmatch.translate`: an optional
leading `!` negates; a `]` directly after `[` (or after `[!`) is class
content, not the closing bracket; `none` when no closing `]` exists
(the `[` is then a literal character). -/
def parseClass (ps : List Char) : Option (Bool × List Char × List Char) :=
  let neg : Bool := ps.head? = some '!'
  let ps1 := if ps.head? = some '!' then ps.tail else ps
  if ps1.head? = some ']' then
    (findClose ps1.tail).map (fun p => (neg, ']' :: p.1, p.2))
  else
    (findClose ps1).map (fun p => (neg, p.1, p.2))

theorem parseClass_rest_length (ps : List Char) (neg : Bool) (cls rest : List Char)
    (h : parseClass ps = some (neg, cls, rest)) : rest.length < ps.length := by
  unfold parseClass at h
  set ps1 := if ps.head? = some '!' then ps.tail else ps with hps1
  have hle : ps1.length ≤ ps.length := by
    rw [hps1]
    split
    · simp [List.length_tail]
    · exact le_rfl
  by_cases hbr : ps1.head? = some ']'
  · rw [if_pos hbr] at h
    cases hf : findClose ps1.tail with
    | none => rw [hf] at h; simp at h
    | some p =>
      obtain ⟨p1, p2⟩ := p
      rw [hf] at h
      simp only [Option.map_some', Option.some.injEq, Prod.mk.injEq] at h
      obtain ⟨-, -, h2⟩ := h
      have hlen2 := congrArg List.length h2
      have h1 := findClose_rest_length ps1.tail p1 p2 hf
      have h3 : ps1.tail.length < ps1.length := by
        cases hp : ps1 with
        | nil => rw [hp] at hbr; simp at hbr
        | cons a l => simp [hp]
      omega
  · rw [if_neg hbr] at h
    cases hf : findClose ps1 with
    | none => rw [hf] at h; simp at h
    | some p =>
      obtain ⟨p1, p2⟩ := p
      rw [hf] at h
      simp only [Option.map_some', Option.some.injEq, Prod.mk.injEq] at h
      obtain ⟨-, -, h2⟩ := h
      have hlen2 := congrArg List.length h2
      have h1 := findClose_rest_length ps1 p1 p2 hf
      omega

/-- Compile a glob pattern into tokens, as `fnmatch.translate` compiles
it into a regular expression. -/
def compilePat : List Char → List GlobTok
  | [] => []
  | c :: ps =>
    if c = '*' then .star :: compilePat ps
    else if c = '?' then .qmark :: compilePat ps
    else if c = '[' then
      match h : parseClass ps with
      | some ncr => .cls ncr.1 ncr.2.1 :: compilePat ncr.2.2
      | none => .lit '[' :: compilePat ps
    else .lit c :: compilePat ps
termination_by l => l.length
decreasing_by
  all_goals simp only [List.length_cons]
  any_goals omega
  have := parseClass_rest_length _ ncr.1 ncr.2.1 ncr.2.2 h
  omega

/-- Does character `c` belong to a class body?  `a-b` spans a range of
code points, as in the regular expression `fnmatch.translate` emits;
other characters match themselves. -/
def matchClass : List Char → Char → Bool
  | a :: '-' :: b :: rest, c => (decide (a ≤ c) && decide (c ≤ b)) || matchClass rest c
  | a :: rest, c => (a == c) || matchClass rest c
  | [], _ => false

/-- Match compiled glob tokens against a name, with the usual
backtracking semantics of `*` (regex `.*` full-match). -/
def matchToks : List GlobTok → List Char → Bool
  | [], [] => true
  | [], _ :: _ => false
  | .star :: ts, [] => matchToks ts []
  | .star :: ts, c :: cs => matchToks ts (c :: cs) || matchToks (.star :: ts) cs
  | .qmark :: _, [] => false
  | .qmark :: ts, _ :: cs => matchToks ts cs
  | .cls _ _ :: _, [] => false
  | .cls neg content :: ts, c :: cs => (matchClass content c != neg) && matchToks ts cs
  | .lit _ :: _, [] => false
  | .lit p :: ts, c :: cs => (p == c) && matchToks ts cs
termination_by ts s => (ts.length, s.length)

/-- Embedding of Python `fnmatch.fnmatch(name, pat)` (case-preserving,
as on POSIX where `os.path.normcase` is the identity). -/
def fnmatchGlob (name pat : String) : Bool :=
  matchToks (compilePat pat.data) name.data

/-- The allow-pattern loop of `check_branch_allowed`: return on the
first pattern that matches, deny after the loop. -/
def matchLoop (branch : String) : List String → Bool × String
  | [] => (false, "Branch " ++ branch ++ " does not match allowed patterns")
  | p :: ps =>
    if fnmatchGlob branch p then (true, "Allowed by pattern") else matchLoop branch ps

/-- Embedding of `check_branch_allowed(branch)` (command-agent server.py
lines 157-170) with the module-global configuration `BLOCKED_BRANCHES`
and `ALLOWED_BRANCH_PATTERNS` passed as the `blocked` and
`allowed_patterns` parameters. -/
def check_branch_allowed (blocked allowed_patterns : List String) (branch : String) :
    Bool × String :=
  if branch ∈ blocked then (false, "Branch " ++ branch ++ " is protected")
  else if allowed_patterns ≠ [] then matchLoop branch allowed_patterns
  else (true, "Allowed")

theorem matchLoop_fst (branch : String) (ps : List String) :
    (matchLoop branch ps).1 = ps.any (fun p => fnmatchGlob branch p) := by
  induction ps with
  | nil => simp [matchLoop]
  | cons p ps ih =>
    by_cases hp : fnmatchGlob branch p
    · simp [matchLoop, hp]
    · simp [matchLoop, hp, ih]

/-- C5: a branch on the blocklist is denied unconditionally, even if it
matches an allow pattern; otherwise a non-empty allow-pattern list
admits exactly the branches glob-matching at least one pattern, and an
empty pattern list admits every non-blocked branch. -/
theorem check_branch_allowed_characterization (blocked patterns : List String) (b : String) :
    (check_branch_allowed blocked patterns b).1 = true ↔
      b ∉ blocked ∧ (patterns = [] ∨ ∃ p ∈ patterns, fnmatchGlob b p = true) := by
  by_cases hb : b ∈ blocked
  · simp [check_branch_allowed, hb]
  · by_cases hp : patterns = []
    · subst hp
      simp [check_branch_allowed, hb]
    · simp [check_branch_allowed, hb, hp, matchLoop_fst, List.any_eq_true]

/-! ## Command agent: git push argv parsing (`src/command-agent/server.py`)

`extract_push_branch(args)` receives the argv after the `push` token,
strips recognized flags, and reads the target branch off the remaining
positional tokens.  `None` is the "no branch" signal (push the current
branch, or a deletion). -/

/-- The fixed zero-argument flags skipped by `extract_push_branch`. -/
def PUSH_ZERO_ARG_FLAGS : List String :=
  ["-u", "--set-upstream", "-f", "--force", "--force-with-lease",
   "-n", "--dry-run", "-v", "--verbose", "-q", "--quiet",
   "--all", "--tags", "--delete", "--prune"]

/-- The fixed one-argument flags whose following token is also skipped. -/
def PUSH_ONE_ARG_FLAGS : List String :=
  ["-o", "--push-option", "--repo", "--receive-pack", "--exec"]

/-- The flag-skipping loop of `extract_push_branch`: `skip` is the
`skip_next` state, the result is `non_option_args`.  Any unrecognized
token starting with `-` is dropped without error (`startswith('-')` is
a head-character test). -/
def filterPushArgs (skip : Bool) : List String → List String
  | [] => []
  | a :: rest =>
    if skip then filterPushArgs false rest
    else if a ∈ PUSH_ZERO_ARG_FLAGS then filterPushArgs false rest
    else if a.data.head? = some '-' then
      if a ∈ PUSH_ONE_ARG_FLAGS then filterPushArgs true rest
      else filterPushArgs false rest
    else a :: filterPushArgs false rest

/-- The positional-token logic of `extract_push_branch`: with at least
two positional tokens the second is the refspec — if it contains `:`
the code takes `refspec.split(':')[1]` and returns `None` (no branch)
when that piece is empty; with exactly one token, a well-known remote
name means "push the current branch" (`None`), otherwise the token is
the branch; with none, `None`. -/
def branchFromPositional : List String → Option String
  | [] => none
  | [tok] => if tok = "origin" ∨ tok = "upstream" then none else some tok
  | _ :: refspec :: _ =>
    if ':' ∈ refspec.data then
      let dst : String := ⟨(pySplit ':' refspec.data).getD 1 []⟩
      if dst = "" then none else some dst
    else some refspec

/-- Embedding of `extract_push_branch(args)` (command-agent server.py
lines 173-215): strip flags, then read the branch off the positional
tokens. -/
def extract_push_branch (args : List String) : Option String :=
  branchFromPositional (filterPushArgs false args)

/-- C3 counterexample: on `["origin", ":deleteme"]` — a git deletion
refspec — `extract_push_branch` returns the branch `"deleteme"`, not
the deletion signal `None`: `":deleteme".split(':')[1]` is the
non-empty string `"deleteme"`. -/
theorem extract_push_branch_delete_refspec :
    extract_push_branch ["origin", ":deleteme"] = some "deleteme" := by decide

/-- C3 (amended): when the second positional token after flag skipping
is a refspec containing `:`, the parsed branch is the segment of the
refspec strictly between the first colon and the following colon (if
any) — `refspec.split(':')[1]`, not the entire text after the first
colon — and the deletion signal (no branch) is produced only when that
segment is empty, i.e. when a second colon immediately follows the
first or the refspec ends at the first colon.  In particular
`["origin", ":deleteme"]` parses to the branch `"deleteme"`. -/
theorem extract_push_branch_colon_segment (args : List String) (r refspec s t : String)
    (rest : List String)
    (hpos : filterPushArgs false args = r :: refspec :: rest)
    (hsplit : refspec.data = s.data ++ ':' :: t.data)
    (hs : ':' ∉ s.data) :
    extract_push_branch args =
      (if t.data.takeWhile (fun c => !(c = ':' : Bool)) = [] then none
       else some ⟨t.data.takeWhile (fun c => !(c = ':' : Bool))⟩) := by
  obtain ⟨tl, htl⟩ := pySplit_head ':' t.data
  have hmem : ':' ∈ refspec.data := by
    rw [hsplit]
    exact List.mem_append_right _ (List.mem_cons_self _ _)
  have hsegment : (pySplit ':' refspec.data).getD 1 []
      = t.data.takeWhile (fun c => !(c = ':' : Bool)) := by
    rw [hsplit, pySplit_append ':' s.data t.data hs, htl]
    rfl
  rw [extract_push_branch, hpos]
  rw [show branchFromPositional (r :: refspec :: rest)
      = (if ':' ∈ refspec.data then
          (if (⟨(pySplit ':' refspec.data).getD 1 []⟩ : String) = "" then none
           else some ⟨(pySplit ':' refspec.data).getD 1 []⟩)
         else some refspec) from rfl]
  rw [if_pos hmem, hsegment]
  by_cases ht : t.data.takeWhile (fun c => !(c = ':' : Bool)) = []
  · have hstr : (⟨t.data.takeWhile (fun c => !(c = ':' : Bool))⟩ : String) = "" := by
      rw [ht]
    rw [if_pos hstr, if_pos ht]
  · have hstr : ¬ (⟨t.data.takeWhile (fun c => !(c = ':' : Bool))⟩ : String) = "" := by
      intro hcontra
      exact ht (congrArg String.data hcontra)
    rw [if_neg hstr, if_neg ht]

/-- C3 amended-theorem witness: on an argv with three positional tokens
whose second is the refspec `"a:b:c"`, the parsed branch is `"b"`, the
segment between the first and second colons. -/
theorem extract_push_branch_colon_segment_witness :
    extract_push_branch ["origin", "a:b:c", "extra"] = some "b" := by
  have h := extract_push_branch_colon_segment ["origin", "a:b:c", "extra"]
    "origin" "a:b:c" "a" "b:c" ["extra"] (by decide) (by decide) (by decide)
  rw [h]
  decide

/-! ## Command agent: pre-execution validation and execution
(`src/command-agent/server.py`)

`validate_command(cmd, args, cwd)` uses `cwd` only through the
`get_current_branch(cwd)` subprocess query; that query's result is
passed in here as `currentBranch` (`none` models both the failure paths
and a missing branch).  The branch-protection configuration is passed
as `blocked` / `patterns` as in `check_branch_allowed`. -/

/-- The fixed command allow-set `ALLOWED_COMMANDS = {'git','gh','curl'}`. -/
def ALLOWED_COMMANDS : List String := ["git", "gh", "curl"]

/-- Embedding of `validate_command` (command-agent server.py lines
240-266).  For `git push`, the branch is the parser's result or, when
that is `None`, the current-branch query's result; the
branch-protection check runs only when the resulting branch is a
non-empty string (Python truthiness).  Then `git config/remote
--global` and `gh auth/config` are blanket-denied. -/
def validate_command (blocked patterns : List String) (currentBranch : Option String)
    (cmd : String) (args : List String) : Bool × String :=
  if cmd ∉ ALLOWED_COMMANDS then
    (false, "Command " ++ cmd ++ " not allowed")
  else if cmd = "git" then
    let branchDenial : Option String :=
      if args.head? = some "push" then
        match (match extract_push_branch args.tail with
               | some b => some b
               | none => currentBranch) with
        | some b =>
          if b ≠ "" then
            let r := check_branch_allowed blocked patterns b
            if r.1 then none else some r.2
          else none
        | none => none
      else none
    match branchDenial with
    | some reason => (false, reason)
    | none =>
      if (args.head? = some "config" ∨ args.head? = some "remote") ∧ "--global" ∈ args then
        (false, "Global git config changes not allowed")
      else (true, "OK")
  else if cmd = "gh" then
    if args.head? = some "auth" ∨ args.head? = some "config" then
      (false, "gh " ++ args.headD "" ++ " not allowed")
    else (true, "OK")
  else (true, "OK")

/-- C2: when a push's target branch cannot be determined — the argv
parser yields no branch and the current-branch query fails — the
validation allows the push, returning `(true, "OK")` for every
branch-protection configuration, so the protection check has no
influence on the outcome. -/
theorem validate_command_push_unknown_branch (blocked patterns : List String)
    (rest : List String) (h : extract_push_branch rest = none) :
    validate_command blocked patterns none "git" ("push" :: rest) = (true, "OK") := by
  rw [validate_command]
  rw [if_neg (by decide)]
  rw [if_pos rfl]
  simp only [List.head?_cons, List.tail_cons, h]
  simp

/-- C2 witness: `git push` with no arguments, an unknown current branch
and `main` blocked is allowed. -/
theorem validate_command_push_unknown_branch_witness :
    extract_push_branch ([] : List String) = none ∧
    validate_command ["main"] [] none "git" ["push"] = (true, "OK") :=
  ⟨by decide, validate_command_push_unknown_branch ["main"] [] [] (by decide)⟩

/-- The per-stream output cap `MAX_OUTPUT_SIZE = 1024 * 1024` (1 MiB). -/
def MAX_OUTPUT_SIZE : Nat := 1024 * 1024

/-- The marker appended to a truncated stream. -/
def TRUNCATION_MARKER : List Char := "\n... (truncated)".data

/-- The truncation applied by `execute_command` to each captured stream:
`stdout[:MAX_OUTPUT_SIZE] + "\n... (truncated)"` when over the cap. -/
def truncateOutput (s : List Char) : List Char :=
  if s.length > MAX_OUTPUT_SIZE then s.take MAX_OUTPUT_SIZE ++ TRUNCATION_MARKER else s

/-- What the spawned subprocess did, as seen by `execute_command`'s
`try` block: a completed run with exit status and raw captured streams,
or one of the three exception paths. -/
inductive RunOutcome where
  | completed (returncode : Int) (stdout stderr : List Char)
  | timedOut
  | notFound
  | failed (msg : List Char)

/-- The result dictionary of `execute_command`. -/
structure ExecResult where
  exit_code : Int
  stdout : List Char
  stderr : List Char

/-- Embedding of the result handling of `execute_command` (command-agent
server.py lines 294-327): truncate each stream of a completed run;
timeout gives 124, a missing binary 127 (naming only the command), any
other failure 1 with the error text as stderr.  Credential injection
into the subprocess environment happens before this and does not affect
the returned result shape. -/
def execute_command_result (cmd : String) : RunOutcome → ExecResult
  | .completed rc out err => ⟨rc, truncateOutput out, truncateOutput err⟩
  | .timedOut => ⟨124, [], "Command timed out".data⟩
  | .notFound => ⟨127, [], ("Command not found: " ++ cmd).data⟩
  | .failed msg => ⟨1, [], msg⟩

/-- C9: each captured stream of a completed command is returned intact
when within the 1 MiB cap, and otherwise is cut at the cap with the
truncation marker appended — content beyond the cap is never dropped
without indication. -/
theorem execute_command_output_bounded (cmd : String) (rc : Int) (out err : List Char) :
    ((out.length ≤ MAX_OUTPUT_SIZE ∧
        (execute_command_result cmd (.completed rc out err)).stdout = out) ∨
     (out.length > MAX_OUTPUT_SIZE ∧
        (execute_command_result cmd (.completed rc out err)).stdout
          = out.take MAX_OUTPUT_SIZE ++ TRUNCATION_MARKER)) ∧
    ((err.length ≤ MAX_OUTPUT_SIZE ∧
        (execute_command_result cmd (.completed rc out err)).stderr = err) ∨
     (err.length > MAX_OUTPUT_SIZE ∧
        (execute_command_result cmd (.completed rc out err)).stderr
          = err.take MAX_OUTPUT_SIZE ++ TRUNCATION_MARKER)) := by
  constructor
  · by_cases ho : out.length > MAX_OUTPUT_SIZE
    · exact Or.inr ⟨ho, by simp [execute_command_result, truncateOutput, ho]⟩
    · exact Or.inl ⟨by omega, by simp [execute_command_result, truncateOutput, ho]⟩
  · by_cases he : err.length > MAX_OUTPUT_SIZE
    · exact Or.inr ⟨he, by simp [execute_command_result, truncateOutput, he]⟩
    · exact Or.inl ⟨by omega, by simp [execute_command_result, truncateOutput, he]⟩

/-! ## Command agent: request router (`src/command-agent/server.py`)

`CommandAgent.handle_request(conn, request)` re-derives the peer
credentials from the socket (modelled by the `peer` parameter), checks
the uid against `ALLOWED_UIDS` before looking at the action, and then
dispatches on `request.get("action", "exec")`. -/

/-- Kernel-reported `SO_PEERCRED` credentials of the connecting
process. -/
structure PeerCredentials where
  pid : Nat
  uid : Nat
  gid : Nat
  deriving DecidableEq, Repr

/-- An incoming command-agent request; `none` fields model absent JSON
keys (`request.get` defaults apply in the handler). -/
structure CmdRequest where
  action : Option String := none
  cmd : Option String := none
  args : List String := []
  cwd : Option String := none
  deriving DecidableEq, Repr

/-- A command-agent response, at the dispatch level: `executed` means
validation passed and `execute_command` runs with the given inputs. -/
inductive CmdResponse where
  | accessDenied (uid : Nat)
  | health (credentials blocked_branches allowed_patterns : List String)
  | errorNoCommand
  | rejected (reason : String)
  | executed (cmd : String) (args : List String) (cwd : String)
  | unknownAction (action : String)
  deriving DecidableEq, Repr

/-- Embedding of `CommandAgent.handle_request` (command-agent server.py
lines 356-393): the uid gate runs first, for every action; then
`health` answers with credential names and the branch-protection
configuration, and `exec` validates and executes. -/
def cmd_handle_request (allowed_uids : List Nat) (blocked patterns credentials : List String)
    (currentBranch : Option String) (peer : PeerCredentials) (req : CmdRequest) :
    CmdResponse :=
  if peer.uid ∉ allowed_uids then .accessDenied peer.uid
  else
    let action := req.action.getD "exec"
    if action = "health" then .health credentials blocked patterns
    else if action = "exec" then
      let cmd := req.cmd.getD ""
      if cmd = "" then .errorNoCommand
      else
        let r := validate_command blocked patterns currentBranch cmd req.args
        if r.1 then .executed cmd req.args (req.cwd.getD "/workspace")
        else .rejected r.2
    else .unknownAction action

/-! ## Credential agent: policy engine (`src/credential-agent/server.py`) -/

/-- A per-tool policy entry: Python reads `tool_policy.get("enabled",
True)` and `tool_policy.get("operations", {})`, so a missing tool is
the defaulted entry. -/
structure ToolPolicy where
  enabled : Bool := true
  operations : List (String × Bool) := []
  deriving DecidableEq, Repr

/-- Embedding of the `Policy` dataclass. -/
structure Policy where
  tools : List (String × ToolPolicy) := []
  allowed_uids : List Nat := []
  default_deny : Bool := true
  audit_all : Bool := true
  deriving DecidableEq, Repr

/-- Embedding of `Policy.check_access(tool, operation, uid, pid)`
(credential-agent server.py lines 160-189), evaluated in the source's
order: uid allowlist, tool enabled flag, operations map (the
operation's boolean when present, `default_deny` when absent, allow
when no map is declared). -/
def Policy.check_access (p : Policy) (tool operation : String) (uid pid : Nat) :
    Bool × String :=
  if uid ∉ p.allowed_uids then
    (false, "UID " ++ toString uid ++ " not in allowed list")
  else
    let tool_policy := ((p.tools.lookup tool).getD {})
    if tool_policy.enabled = false then
      (false, "Tool " ++ tool ++ " is disabled")
    else
      let operations := tool_policy.operations
      if operations ≠ [] then
        match operations.lookup operation with
        | none =>
          if p.default_deny then
            (false, "Operation " ++ operation ++ " not allowed for tool " ++ tool)
          else (true, "Access granted")
        | some b =>
          if b = false then
            (false, "Operation " ++ operation ++ " explicitly denied for tool " ++ tool)
          else (true, "Access granted")
      else (true, "Access granted")

/-- C6: `check_access` grants access exactly when the uid is allowlisted,
the tool is not disabled, and — when the tool declares a non-empty
operations map — the operation's boolean is `true` when present, or
`default_deny` is `false` when absent; a tool with no operations map
admits every operation.  The guards are evaluated in that fixed
order. -/
theorem check_access_characterization (p : Policy) (tool operation : String) (uid pid : Nat) :
    (Policy.check_access p tool operation uid pid).1 = true ↔
      uid ∈ p.allowed_uids ∧
      ((p.tools.lookup tool).getD {}).enabled = true ∧
      (((p.tools.lookup tool).getD {}).operations = [] ∨
       ((p.tools.lookup tool).getD {}).operations.lookup operation = some true ∨
       (((p.tools.lookup tool).getD {}).operations.lookup operation = none ∧
        p.default_deny = false)) := by
  by_cases hu : uid ∈ p.allowed_uids
  · by_cases he : ((p.tools.lookup tool).getD {}).enabled = false
    · simp [Policy.check_access, hu, he]
    · by_cases hops : ((p.tools.lookup tool).getD {}).operations = []
      · simp [Policy.check_access, hu, he, hops, eq_true_of_ne_false he]
      · cases hb : ((p.tools.lookup tool).getD {}).operations.lookup operation with
        | none =>
          by_cases hd : p.default_deny
          · simp [Policy.check_access, hu, he, hops, hb, hd]
          · simp [Policy.check_access, hu, he, hops, hb, hd, eq_true_of_ne_false he]
        | some b =>
          cases b with
          | false => simp [Policy.check_access, hu, he, hops, hb]
          | true => simp [Policy.check_access, hu, he, hops, hb, eq_true_of_ne_false he]
  · simp [Policy.check_access, hu]

/-- C10: the caller's pid never influences the policy decision — for any
two pids, `check_access` returns the identical result; only the uid
(and the tool/operation) matter. -/
theorem check_access_pid_irrelevant (p : Policy) (tool operation : String)
    (uid pid₁ pid₂ : Nat) :
    Policy.check_access p tool operation uid pid₁
      = Policy.check_access p tool operation uid pid₂ := rfl

/-! ## Credential agent: environment scrubbing
(`src/credential-agent/server.py`, `src/plugins/base/security.py`)

The process environment is modelled as an association list; `envGet`
is `os.environ.get`, `envDel` is `del os.environ[k]` /
`os.environ.pop(k, None)`, `dictInsert` is Python dict assignment.
Python string operations are performed on the character lists. -/

/-- `os.environ.get(k)`: first binding of `k` wins (the environment has
unique keys). -/
def envGet : List (String × String) → String → Option String
  | [], _ => none
  | kv :: rest, k => if kv.1 = k then some kv.2 else envGet rest k

/-- `del os.environ[k]` (also `os.environ.pop(k, None)`). -/
def envDel : List (String × String) → String → List (String × String)
  | [], _ => []
  | kv :: rest, k => if kv.1 = k then envDel rest k else kv :: envDel rest k

/-- Python dict assignment `d[k] = v`: update the binding in place,
else append. -/
def dictInsert : List (String × String) → String → String → List (String × String)
  | [], k, v => [(k, v)]
  | kv :: rest, k, v => if kv.1 = k then (k, v) :: rest else kv :: dictInsert rest k v

/-- The fixed `credential_map` of
`CredentialStore._load_from_environment` (credential-agent server.py
lines 206-214): source environment variable to credential name. -/
def CREDENTIAL_MAP : List (String × String) :=
  [("GITHUB_TOKEN", "github"),
   ("GITLAB_TOKEN", "gitlab"),
   ("AWS_ACCESS_KEY_ID", "aws_access_key"),
   ("AWS_SECRET_ACCESS_KEY", "aws_secret_key"),
   ("NPM_TOKEN", "npm"),
   ("PYPI_TOKEN", "pypi"),
   ("DOCKER_TOKEN", "docker")]

/-- One iteration of the `credential_map` loop: load and delete the
variable only when `os.environ.get(var)` is truthy — present *and*
non-empty.  The accumulator is `(secrets, environment)`. -/
def loadMapStep (acc : List (String × String) × List (String × String))
    (e : String × String) : List (String × String) × List (String × String) :=
  match envGet acc.2 e.1 with
  | some v => if v ≠ "" then (dictInsert acc.1 e.2 v, envDel acc.2 e.1) else acc
  | none => acc

/-- One iteration of the `AGENT_SECRET_*` loop: the value is read by
direct indexing (no truthiness check) and the variable is always
deleted; the credential name is `key[13:].lower()`. -/
def loadSecretStep (acc : List (String × String) × List (String × String))
    (k : String) : List (String × String) × List (String × String) :=
  match envGet acc.2 k with
  | some v => (dictInsert acc.1 ⟨(k.data.drop 13).map Char.toLower⟩ v, envDel acc.2 k)
  | none => acc

/-- Embedding of `CredentialStore._load_from_environment` (credential-
agent server.py lines 203-237): run the `credential_map` loop, then
sweep a snapshot of the remaining keys for the `AGENT_SECRET_` prefix.
Returns `(loaded secrets, remaining environment)`. -/
def load_from_environment (env : List (String × String)) :
    List (String × String) × List (String × String) :=
  let acc1 := CREDENTIAL_MAP.foldl loadMapStep ([], env)
  let keys := (acc1.2.map Prod.fst).filter
    (fun k => "AGENT_SECRET_".data.isPrefixOf k.data)
  keys.foldl loadSecretStep acc1

/-- Embedding of `SecureCredentials.load_from_env(env_vars, clear_env)`
(plugins/base/security.py lines 31-47): same truthiness gate; the
variable is removed only when `clear_env` is set. -/
def loadEnvStep (clear_env : Bool)
    (acc : List (String × String) × List (String × String)) (var : String) :
    List (String × String) × List (String × String) :=
  match envGet acc.2 var with
  | some v =>
    if v ≠ "" then
      (dictInsert acc.1 var v, if clear_env then envDel acc.2 var else acc.2)
    else acc
  | none => acc

def load_from_env (env_vars : List String) (clear_env : Bool)
    (env : List (String × String)) :
    List (String × String) × List (String × String) :=
  env_vars.foldl (loadEnvStep clear_env) ([], env)

theorem envGet_envDel_self (env : List (String × String)) (k : String) :
    envGet (envDel env k) k = none := by
  induction env with
  | nil => rfl
  | cons kv rest ih =>
    by_cases hk : kv.1 = k
    · simp [envDel, hk, ih]
    · simp [envDel, envGet, hk, ih]

theorem envGet_envDel_ne (env : List (String × String)) (k j : String) (h : k ≠ j) :
    envGet (envDel env j) k = envGet env k := by
  induction env with
  | nil => rfl
  | cons kv rest ih =>
    by_cases hj : kv.1 = j
    · have hk : ¬ kv.1 = k := by rw [hj]; exact fun hh => h hh.symm
      simp [envDel, envGet, hj, hk, ih, Ne.symm h]
    · by_cases hk : kv.1 = k
      · simp [envDel, envGet, hj, hk, h]
      · simp [envDel, envGet, hj, hk, ih, h]

theorem envGet_envDel_none (env : List (String × String)) (k j : String)
    (h : envGet env k = none) : envGet (envDel env j) k = none := by
  by_cases hkj : k = j
  · subst hkj
    exact envGet_envDel_self env k
  · rw [envGet_envDel_ne env k j hkj]
    exact h

theorem envGet_some_mem (env : List (String × String)) (k v : String)
    (h : envGet env k = some v) : k ∈ env.map Prod.fst := by
  induction env with
  | nil => simp [envGet] at h
  | cons kv rest ih =>
    by_cases hk : kv.1 = k
    · exact hk ▸ List.mem_map_of_mem Prod.fst (List.mem_cons_self kv rest)
    · simp only [envGet, if_neg hk] at h
      exact List.mem_cons_of_mem kv.1 (ih h)

theorem loadMapStep_none (acc : List (String × String) × List (String × String))
    (e : String × String) (k : String) (h : envGet acc.2 k = none) :
    envGet ((loadMapStep acc e).2) k = none := by
  cases hg : envGet acc.2 e.1 with
  | none => simpa [loadMapStep, hg] using h
  | some v =>
    by_cases hv : v = ""
    · simpa [loadMapStep, hg, hv] using h
    · simp only [loadMapStep, hg, hv, ne_eq, not_false_eq_true, if_true]
      exact envGet_envDel_none _ _ _ h

theorem loadSecretStep_none (acc : List (String × String) × List (String × String))
    (j k : String) (h : envGet acc.2 k = none) :
    envGet ((loadSecretStep acc j).2) k = none := by
  cases hg : envGet acc.2 j with
  | none => simpa [loadSecretStep, hg] using h
  | some v =>
    simp only [loadSecretStep, hg]
    exact envGet_envDel_none _ _ _ h

theorem foldl_env_preserves_none {β : Type}
    (f : List (String × String) × List (String × String) → β →
      List (String × String) × List (String × String))
    (hf : ∀ acc x k, envGet acc.2 k = none → envGet ((f acc x).2) k = none)
    (xs : List β) (acc : List (String × String) × List (String × String))
    (k : String) (h : envGet acc.2 k = none) :
    envGet ((xs.foldl f acc).2) k = none := by
  induction xs generalizing acc with
  | nil => exact h
  | cons x rest ih =>
    rw [List.foldl_cons]
    exact ih _ (hf acc x k h)

theorem foldMap_deletes (entries : List (String × String))
    (acc : List (String × String) × List (String × String)) (k : String)
    (hmem : k ∈ entries.map Prod.fst)
    (hinv : envGet acc.2 k = none ∨ ∃ v, envGet acc.2 k = some v ∧ v ≠ "") :
    envGet ((entries.foldl loadMapStep acc).2) k = none := by
  induction entries generalizing acc with
  | nil => simp at hmem
  | cons e rest ih =>
    rw [List.foldl_cons]
    by_cases hek : e.1 = k
    · rcases hinv with hnone | ⟨v, hv, hvne⟩
      · exact foldl_env_preserves_none loadMapStep loadMapStep_none rest _ k
          (loadMapStep_none acc e k hnone)
      · have hstep : (loadMapStep acc e).2 = envDel acc.2 k := by
          simp only [loadMapStep, hek, hv, hvne, ne_eq, not_false_eq_true, if_true]
        exact foldl_env_preserves_none loadMapStep loadMapStep_none rest _ k
          (by rw [hstep]; exact envGet_envDel_self acc.2 k)
    · have hmem' : k ∈ rest.map Prod.fst := by
        simp only [List.map_cons, List.mem_cons] at hmem
        rcases hmem with h1 | h1
        · exact absurd h1.symm hek
        · exact h1
      have hpres : envGet ((loadMapStep acc e).2) k = envGet acc.2 k := by
        cases hg : envGet acc.2 e.1 with
        | none => simp [loadMapStep, hg]
        | some v =>
          by_cases hv : v = ""
          · simp [loadMapStep, hg, hv]
          · simp only [loadMapStep, hg, hv, ne_eq, not_false_eq_true, if_true]
            exact envGet_envDel_ne acc.2 k e.1 (fun hh => hek hh.symm)
      exact ih _ hmem' (hpres ▸ hinv)

theorem foldSecret_deletes (keys : List String)
    (acc : List (String × String) × List (String × String)) (k : String)
    (hmem : k ∈ keys) :
    envGet ((keys.foldl loadSecretStep acc).2) k = none := by
  induction keys generalizing acc with
  | nil => simp at hmem
  | cons j rest ih =>
    rw [List.foldl_cons]
    by_cases hjk : j = k
    · subst hjk
      refine foldl_env_preserves_none loadSecretStep loadSecretStep_none rest _ j ?_
      cases hg : envGet acc.2 j with
      | none => simp [loadSecretStep, hg]
      | some v =>
        simp only [loadSecretStep, hg]
        exact envGet_envDel_self acc.2 j
    · rcases List.mem_cons.mp hmem with h1 | h1
      · exact absurd h1.symm hjk
      · exact ih _ h1

theorem foldMap_untouched (entries : List (String × String))
    (acc : List (String × String) × List (String × String)) (k : String)
    (hne : ∀ e ∈ entries, e.1 ≠ k) :
    envGet ((entries.foldl loadMapStep acc).2) k = envGet acc.2 k := by
  induction entries generalizing acc with
  | nil => rfl
  | cons e rest ih =>
    rw [List.foldl_cons]
    have hek := hne e (List.mem_cons_self e rest)
    have hpres : envGet ((loadMapStep acc e).2) k = envGet acc.2 k := by
      cases hg : envGet acc.2 e.1 with
      | none => simp [loadMapStep, hg]
      | some v =>
        by_cases hv : v = ""
        · simp [loadMapStep, hg, hv]
        · simp only [loadMapStep, hg, hv, ne_eq, not_false_eq_true, if_true]
          exact envGet_envDel_ne acc.2 k e.1 (fun hh => hek hh.symm)
    rw [ih _ (fun e he => hne e (List.mem_cons_of_mem _ he)), hpres]

theorem loadEnvStep_none (acc : List (String × String) × List (String × String))
    (x k : String) (h : envGet acc.2 k = none) :
    envGet ((loadEnvStep true acc x).2) k = none := by
  cases hg : envGet acc.2 x with
  | none => simpa [loadEnvStep, hg] using h
  | some v =>
    by_cases hv : v = ""
    · simpa [loadEnvStep, hg, hv] using h
    · simp only [loadEnvStep, hg, hv, ne_eq, not_false_eq_true, if_true]
      exact envGet_envDel_none _ _ _ h

theorem foldEnv_deletes (vars : List String)
    (acc : List (String × String) × List (String × String)) (k : String)
    (hmem : k ∈ vars)
    (hinv : envGet acc.2 k = none ∨ ∃ v, envGet acc.2 k = some v ∧ v ≠ "") :
    envGet ((vars.foldl (loadEnvStep true) acc).2) k = none := by
  induction vars generalizing acc with
  | nil => simp at hmem
  | cons x rest ih =>
    rw [List.foldl_cons]
    by_cases hxk : x = k
    · rcases hinv with hnone | ⟨v, hv, hvne⟩
      · exact foldl_env_preserves_none (loadEnvStep true) loadEnvStep_none rest _ k
          (loadEnvStep_none acc x k hnone)
      · have hstep : (loadEnvStep true acc x).2 = envDel acc.2 k := by
          simp only [loadEnvStep, hxk, hv, hvne, ne_eq, not_false_eq_true, if_true]
        exact foldl_env_preserves_none (loadEnvStep true) loadEnvStep_none rest _ k
          (by rw [hstep]; exact envGet_envDel_self acc.2 k)
    · have hmem' : k ∈ rest := by
        rcases List.mem_cons.mp hmem with h1 | h1
        · exact absurd h1.symm hxk
        · exact h1
      have hpres : envGet ((loadEnvStep true acc x).2) k = envGet acc.2 k := by
        cases hg : envGet acc.2 x with
        | none => simp [loadEnvStep, hg]
        | some v =>
          by_cases hv : v = ""
          · simp [loadEnvStep, hg, hv]
          · simp only [loadEnvStep, hg, hv, ne_eq, not_false_eq_true, if_true]
            exact envGet_envDel_ne acc.2 k x (fun hh => hxk hh.symm)
      exact ih _ hmem' (hpres ▸ hinv)

/-- C7 counterexample: `GITHUB_TOKEN` is a credential-source variable,
yet when it is present in the startup environment with an empty value,
the `if value:` truthiness gate of `_load_from_environment` skips it
and it is still present in the process environment after the load
step. -/
theorem load_env_empty_value_remains :
    envGet (load_from_environment [("GITHUB_TOKEN", "")]).2 "GITHUB_TOKEN" = some "" ∧
    "GITHUB_TOKEN" ∈ CREDENTIAL_MAP.map Prod.fst := by
  constructor
  · decide
  · decide

/-- C7 (amended): every credential-source environment variable —
a `credential_map` source or an `AGENT_SECRET_`-prefixed key for the
credential-agent store, a requested variable for the plugin store with
`clear_env` set — that is present in the startup environment with a
NON-EMPTY value is absent from the process environment after the load
step.  (A source variable present with an empty value is skipped by
the truthiness gate and remains, as the counterexample shows.) -/
theorem load_scrubs_nonempty_sources (env : List (String × String)) (k v : String)
    (hget : envGet env k = some v) (hv : v ≠ "") :
    (k ∈ CREDENTIAL_MAP.map Prod.fst ∨ "AGENT_SECRET_".data.isPrefixOf k.data = true →
      envGet (load_from_environment env).2 k = none) ∧
    (∀ env_vars : List String, k ∈ env_vars →
      envGet (load_from_env env_vars true env).2 k = none) := by
  constructor
  · intro hsrc
    rcases hsrc with hmap | hpre
    · exact foldl_env_preserves_none loadSecretStep loadSecretStep_none _ _ k
        (foldMap_deletes CREDENTIAL_MAP ([], env) k hmap (Or.inr ⟨v, hget, hv⟩))
    · have hne : ∀ e ∈ CREDENTIAL_MAP, e.1 ≠ k := by
        intro e he heq
        rw [← heq] at hpre
        fin_cases he <;> exact absurd hpre (by decide)
      have henv1 : envGet ((CREDENTIAL_MAP.foldl loadMapStep ([], env)).2) k = some v := by
        rw [foldMap_untouched CREDENTIAL_MAP ([], env) k hne]
        exact hget
      have hkeys : k ∈ ((CREDENTIAL_MAP.foldl loadMapStep ([], env)).2.map Prod.fst).filter
          (fun k => "AGENT_SECRET_".data.isPrefixOf k.data) := by
        rw [List.mem_filter]
        exact ⟨envGet_some_mem _ k v henv1, hpre⟩
      exact foldSecret_deletes _ _ k hkeys
  · intro env_vars hmem
    exact foldEnv_deletes env_vars ([], env) k hmem (Or.inr ⟨v, hget, hv⟩)

/-- C7 witness: a non-empty `GITHUB_TOKEN` is scrubbed by the
credential-agent load, and a non-empty requested variable is scrubbed
by the plugin load. -/
theorem load_scrubs_nonempty_sources_witness :
    envGet (load_from_environment [("GITHUB_TOKEN", "tok"), ("HOME", "/root")]).2
      "GITHUB_TOKEN" = none ∧
    envGet (load_from_env ["GH_TOKEN"] true [("GH_TOKEN", "x")]).2 "GH_TOKEN" = none := by
  constructor
  · exact (load_scrubs_nonempty_sources [("GITHUB_TOKEN", "tok"), ("HOME", "/root")]
      "GITHUB_TOKEN" "tok" (by decide) (by decide)).1 (Or.inl (by decide))
  · exact (load_scrubs_nonempty_sources [("GH_TOKEN", "x")] "GH_TOKEN" "x"
      (by decide) (by decide)).2 ["GH_TOKEN"] (by decide)

/-! ## Credential agent: request router (`src/credential-agent/server.py`)

`RequestHandler.handle(conn, request)` re-derives peer credentials from
the socket, audits, and dispatches on the action with *no* prior uid
gate: each handler checks policy itself, and `health` answers
unconditionally.  The credential store is modelled as the association
list of (name, value) pairs it holds; the HMAC-SHA-256 of `sign` is
kept abstract as the `signed key data` outcome. -/

/-- Python truthiness of an optional string (`if not value`-style
checks): `None` and `""` are falsy. -/
def pyTruthy : Option String → Bool
  | none => false
  | some s => s ≠ ""

/-- An incoming credential-agent request; `none` fields model absent
JSON keys. -/
structure CredRequest where
  action : Option String := none
  tool : Option String := none
  operation : Option String := none
  data : Option String := none
  deriving DecidableEq, Repr

/-- A credential-agent response at the dispatch level. -/
inductive CredOutcome where
  | error (msg code : String)
  | value (v tool : String)
  | injectEnv (env : List (String × String)) (tool : String)
  | signed (key data : String)
  | credList (names : List String)
  | checkResult (allowed : Bool) (reason tool operation : String)
  | healthOk (secrets_loaded : Nat)
  | unknownAction (action : String)
  deriving DecidableEq, Repr

/-- Embedding of `RequestHandler._handle_get`. -/
def cred_handle_get (policy : Policy) (store : List (String × String))
    (peer : PeerCredentials) (tool operation : String) : CredOutcome :=
  let r := Policy.check_access policy tool operation peer.uid peer.pid
  if r.1 = false then .error r.2 "ACCESS_DENIED"
  else
    match envGet store tool with
    | none => .error ("No credential found for " ++ tool) "NOT_FOUND"
    | some v => .value v tool

/-- Embedding of `RequestHandler._handle_inject`: note the operation
defaults to `"inject"` here, and the github/aws/npm arms use
truthiness while the generic arm tests `is None`. -/
def cred_handle_inject (policy : Policy) (store : List (String × String))
    (peer : PeerCredentials) (tool : String) (req : CredRequest) : CredOutcome :=
  let operation := req.operation.getD "inject"
  let r := Policy.check_access policy tool operation peer.uid peer.pid
  if r.1 = false then .error r.2 "ACCESS_DENIED"
  else if tool = "github" then
    if pyTruthy (envGet store "github") then
      .injectEnv [("GIT_ASKPASS", "echo"), ("GIT_USERNAME", "x-access-token"),
        ("GIT_PASSWORD", (envGet store "github").getD "")] tool
    else .error "GitHub token not configured" "NOT_FOUND"
  else if tool = "aws" then
    if pyTruthy (envGet store "aws_access_key") && pyTruthy (envGet store "aws_secret_key") then
      .injectEnv [("AWS_ACCESS_KEY_ID", (envGet store "aws_access_key").getD ""),
        ("AWS_SECRET_ACCESS_KEY", (envGet store "aws_secret_key").getD "")] tool
    else .error "AWS credentials not configured" "NOT_FOUND"
  else if tool = "npm" then
    if pyTruthy (envGet store "npm") then
      .injectEnv [("NPM_TOKEN", (envGet store "npm").getD "")] tool
    else .error "NPM token not configured" "NOT_FOUND"
  else
    match envGet store tool with
    | none => .error ("No credential found for " ++ tool) "NOT_FOUND"
    | some v => .injectEnv [((⟨tool.data.map Char.toUpper⟩ : String) ++ "_TOKEN", v)] tool

/-- Embedding of `RequestHandler._handle_sign`: access for the "sign"
operation, non-empty data, an existing non-empty key; the HMAC-SHA-256
value is abstracted as `signed key data`, and the key itself never
appears in an error or list outcome. -/
def cred_handle_sign (policy : Policy) (store : List (String × String))
    (peer : PeerCredentials) (tool : String) (req : CredRequest) : CredOutcome :=
  let r := Policy.check_access policy tool "sign" peer.uid peer.pid
  if r.1 = false then .error r.2 "ACCESS_DENIED"
  else
    let data := req.data.getD ""
    if data = "" then .error "No data to sign" "INVALID_REQUEST"
    else if pyTruthy (envGet store tool) then
      .signed ((envGet store tool).getD "") data
    else .error ("No signing key for " ++ tool) "NOT_FOUND"

/-- Embedding of `RequestHandler._handle_list`: a direct uid-allowlist
check, then names only. -/
def cred_handle_list (policy : Policy) (store : List (String × String))
    (peer : PeerCredentials) : CredOutcome :=
  if peer.uid ∉ policy.allowed_uids then .error "Access denied" "ACCESS_DENIED"
  else .credList (store.map Prod.fst)

/-- Embedding of `RequestHandler._handle_check`: the dry-run decision. -/
def cred_handle_check (policy : Policy) (peer : PeerCredentials)
    (tool operation : String) : CredOutcome :=
  let r := Policy.check_access policy tool operation peer.uid peer.pid
  .checkResult r.1 r.2 tool operation

/-- Embedding of `RequestHandler.handle` (credential-agent server.py
lines 289-319): dispatch on `request.get("action", "")` with tool
defaulting to `""` and operation to `"get"`; `health` is answered with
the number of loaded secrets without any authentication. -/
def cred_handle (policy : Policy) (store : List (String × String))
    (peer : PeerCredentials) (req : CredRequest) : CredOutcome :=
  let action := req.action.getD ""
  let tool := req.tool.getD ""
  let operation := req.operation.getD "get"
  if action = "get" then cred_handle_get policy store peer tool operation
  else if action = "inject" then cred_handle_inject policy store peer tool req
  else if action = "sign" then cred_handle_sign policy store peer tool req
  else if action = "list" then cred_handle_list policy store peer
  else if action = "check" then cred_handle_check policy peer tool operation
  else if action = "health" then .healthOk (store.map Prod.fst).length
  else .unknownAction action

/-- C4 counterexample: in the command agent the uid gate runs before the
action dispatch, so a `health` request from a non-allowlisted uid
(1001, allowlist [1000]) is answered with access-denied — `health` is
not authentication-exempt there, contradicting "answered successfully
... for every peer uid". -/
theorem cmd_health_requires_auth :
    cmd_handle_request [1000] ["main", "master"] [] ["github"] none
      ⟨42, 1001, 1001⟩ { action := some "health" } = .accessDenied 1001 := by decide

/-- C4 (amended): in the credential agent, a request from a uid outside
the policy allowlist is denied for `get`, `inject` and `sign` (an
`ACCESS_DENIED` error) and for `list` (access denied), and `check`
reports `allowed = false`; `health` is answered there without any
authentication, for every peer uid.  In the command agent, by
contrast, the uid gate precedes the dispatch, so a uid outside the
allowlist is denied for *every* action — `exec` and also `health`. -/
theorem unauth_requests_denied (policy : Policy) (store : List (String × String))
    (peer : PeerCredentials) (req : CredRequest)
    (allowed_uids : List Nat) (blocked patterns creds : List String)
    (currentBranch : Option String) (cr : CmdRequest)
    (hcred : peer.uid ∉ policy.allowed_uids) (hcmd : peer.uid ∉ allowed_uids) :
    (∃ r, cred_handle policy store peer { req with action := some "get" }
      = .error r "ACCESS_DENIED") ∧
    (∃ r, cred_handle policy store peer { req with action := some "inject" }
      = .error r "ACCESS_DENIED") ∧
    (∃ r, cred_handle policy store peer { req with action := some "sign" }
      = .error r "ACCESS_DENIED") ∧
    (cred_handle policy store peer { req with action := some "list" }
      = .error "Access denied" "ACCESS_DENIED") ∧
    (∃ r, cred_handle policy store peer { req with action := some "check" }
      = .checkResult false r (req.tool.getD "") (req.operation.getD "get")) ∧
    (∀ anyUid : Nat, cred_handle policy store ⟨peer.pid, anyUid, peer.gid⟩
      { req with action := some "health" } = .healthOk (store.map Prod.fst).length) ∧
    (cmd_handle_request allowed_uids blocked patterns creds currentBranch peer cr
      = .accessDenied peer.uid) := by
  have hca : ∀ tool operation,
      Policy.check_access policy tool operation peer.uid peer.pid
        = (false, "UID " ++ toString peer.uid ++ " not in allowed list") := by
    intro tool operation
    simp [Policy.check_access, hcred]
  refine ⟨?_, ?_, ?_, ?_, ?_, ?_, ?_⟩
  · exact ⟨"UID " ++ toString peer.uid ++ " not in allowed list",
      by simp [cred_handle, cred_handle_get, hca]⟩
  · exact ⟨"UID " ++ toString peer.uid ++ " not in allowed list",
      by simp [cred_handle, cred_handle_inject, hca]⟩
  · exact ⟨"UID " ++ toString peer.uid ++ " not in allowed list",
      by simp [cred_handle, cred_handle_sign, hca]⟩
  · simp [cred_handle, cred_handle_list, hcred]
  · exact ⟨"UID " ++ toString peer.uid ++ " not in allowed list",
      by simp [cred_handle, cred_handle_check, hca]⟩
  · intro anyUid
    simp [cred_handle]
  · simp [cmd_handle_request, hcmd]

/-- C4 witness: with allowlist [1000], a request from uid 42 is denied
for `get` in the credential agent and for everything (here the default
`exec`) in the command agent. -/
theorem unauth_requests_denied_witness :
    (∃ r, cred_handle { allowed_uids := [1000] } [("github", "tok")] ⟨5, 42, 42⟩
      { action := some "get" } = .error r "ACCESS_DENIED") ∧
    cmd_handle_request [1000] [] [] [] none ⟨5, 42, 42⟩ {} = .accessDenied 42 := by
  have h := unauth_requests_denied { allowed_uids := [1000] } [("github", "tok")]
    ⟨5, 42, 42⟩ {} [1000] [] [] [] none {} (by decide) (by decide)
  exact ⟨h.1, h.2.2.2.2.2.2⟩
